import Mathlib

/-!
Verification of the pitch-comparison engine of `pitch_compare.py`.

A pitch curve is the `f0` array produced by the external pitch tracker
(`librosa.pyin`): one entry per frame, either a frequency in Hz or NaN for
an unvoiced/undetected frame.  We embed such an array as `List (Option ℝ)`
with `none` standing for NaN.  The pyin contract guarantees that every
present frequency lies in `[fmin, fmax]` with `fmin > 0`; theorems that
depend on this carry an explicit positivity hypothesis (`PosFreqs`).

The DTW engine the program calls (`librosa.sequence.dtw` with its default
parameters: step sizes `[(1,1),(0,1),(1,0)]`, unit multiplicative weights,
zero additive weights, no global constraint) is embedded here faithfully:
cost matrix `|a i - b j|` (scalar Euclidean metric), accumulated-cost
recurrence over the three predecessors, backtracking from the final cell
using the step recorded by the first-strict-improvement scan, and — a key
point — the warping path is returned in the order the backtracking emits
it, i.e. from the last cell `(N-1, M-1)` down to `(0, 0)`, without being
reversed.
-/

/-- The value of one entry of the cents array produced by
`hz_to_cents` (`1200 * np.log2(f0 / 440)` under `np.errstate` suppression):
a finite float, NaN (from a NaN or negative input), or `-inf`
(from a zero input, since `np.log2(0) = -inf`). -/
inductive CentsVal where
  | num (x : ℝ)
  | nan
  | ninf

/-- `hz_to_cents` from the source: `1200 * np.log2(f0 / 440.0)` with divide
and invalid warnings suppressed.  On a present positive frequency it yields
the finite cents value; on NaN it yields NaN; on a negative frequency
`np.log2` yields NaN; on a zero frequency `np.log2` yields `-inf`. -/
noncomputable def hz_to_cents (f : Option ℝ) : CentsVal :=
  match f with
  | none => .nan
  | some x =>
      if 0 < x then .num (1200 * Real.logb 2 (x / 440))
      else if x = 0 then .ninf
      else .nan

/-- Largest finite float64, the value `np.nan_to_num` substitutes for `inf`
(negated for `-inf`). -/
noncomputable def floatMax : ℝ := 1.7976931348623157e308

/-- `np.nan_to_num(·, nan=0)` on one entry: NaN becomes `0`, `-inf` becomes
the most negative finite float64, finite values pass through. -/
noncomputable def nanToNum (c : CentsVal) : ℝ :=
  match c with
  | .num x => x
  | .nan => 0
  | .ninf => -floatMax

/-- The zero-filled cents array handed to the DTW call:
`np.nan_to_num(hz_to_cents(f0), nan=0)`. -/
noncomputable def centsFilled (f : List (Option ℝ)) : List ℝ :=
  f.map fun x => nanToNum (hz_to_cents x)

/-- Local DTW cost: the Euclidean metric of `scipy.spatial.distance.cdist`
on scalars, `|a i - b j|`. -/
noncomputable def dtwCost (a b : List ℝ) (i j : ℕ) : ℝ :=
  |a.getD i 0 - b.getD j 0|

/-- The accumulated-cost matrix `D` of `librosa.sequence.dtw` (restricted to
its valid cells; the library's `inf` padding makes the border cells reachable
by exactly one step, which the first two recursive cases encode).  The three
predecessors of an interior cell are the diagonal `(i, j)`, the left
neighbour `(i+1, j)` (step `(0,1)`), and the upper neighbour `(i, j+1)`
(step `(1,0)`). -/
noncomputable def accCost (a b : List ℝ) : ℕ → ℕ → ℝ
  | 0, 0 => dtwCost a b 0 0
  | i + 1, 0 => dtwCost a b (i + 1) 0 + accCost a b i 0
  | 0, j + 1 => dtwCost a b 0 (j + 1) + accCost a b 0 j
  | i + 1, j + 1 =>
      dtwCost a b (i + 1) (j + 1) +
        min (accCost a b i j) (min (accCost a b (i + 1) j) (accCost a b i (j + 1)))
  termination_by i j => (i, j)

/-- The three admissible DTW steps, named by the direction of the
predecessor cell: `diag` = step `(1,1)`, `left` = step `(0,1)`,
`up` = step `(1,0)`. -/
inductive DtwStep where
  | diag
  | left
  | up
deriving DecidableEq

/-- The step recorded at an interior cell by `__dtw_calc_accu_cost`'s scan
over the step list `[(1,1), (0,1), (1,0)]` with a strict-improvement update:
the first step whose predecessor cost attains the minimum, so ties prefer
`diag`, then `left`, then `up`. -/
noncomputable def chooseStep (dDiag dLeft dUp : ℝ) : DtwStep :=
  if dDiag ≤ dLeft ∧ dDiag ≤ dUp then .diag
  else if dLeft ≤ dUp then .left
  else .up

/-- `__dtw_backtracking`: starting from a cell, repeatedly move to the
predecessor recorded for the current cell until `(0, 0)` is reached,
collecting the cells in the order visited.  On the border only one step is
feasible (the others come from the `inf` padding).  The list is NOT
reversed afterwards: it runs from the starting cell down to `(0, 0)`. -/
noncomputable def backtrack (a b : List ℝ) : ℕ → ℕ → List (ℕ × ℕ)
  | 0, 0 => [(0, 0)]
  | 0, j + 1 => (0, j + 1) :: backtrack a b 0 j
  | i + 1, 0 => (i + 1, 0) :: backtrack a b i 0
  | i + 1, j + 1 =>
      (i + 1, j + 1) ::
        match chooseStep (accCost a b i j) (accCost a b (i + 1) j) (accCost a b i (j + 1)) with
        | .diag => backtrack a b i j
        | .left => backtrack a b (i + 1) j
        | .up => backtrack a b i (j + 1)
  termination_by i j => i + j

/-- The warping path `wp` returned by `librosa.sequence.dtw` for non-empty
inputs: backtracking from the final cell `(N-1, M-1)`. -/
noncomputable def dtwPath (a b : List ℝ) : List (ℕ × ℕ) :=
  backtrack a b (a.length - 1) (b.length - 1)

/-- The failure the aligner surfaces on a zero-length pitch curve
(`librosa.sequence.dtw` raises before any path is produced when a cost
matrix dimension is `0`; the spec names this EmptyContourError). -/
inductive AlignError where
  | emptyContour
deriving DecidableEq

/-- `align_with_dtw` from the source: convert both `f0` arrays to cents,
zero-fill NaN, and run `librosa.sequence.dtw` on the two filled sequences.
On an empty input the library call raises instead of returning a path. -/
noncomputable def align_with_dtw (f0_1 f0_2 : List (Option ℝ)) :
    Except AlignError (List (ℕ × ℕ)) :=
  if f0_1.length = 0 ∨ f0_2.length = 0 then .error .emptyContour
  else .ok (dtwPath (centsFilled f0_1) (centsFilled f0_2))

/-- `calculate_pitch_diff` from the source: for each path pair `(i, j)`, if
both frequencies are present emit `1200 * np.log2(f0_2[j] / f0_1[i])`,
otherwise emit NaN.  (Path indices are always in range for the curves the
path was computed from; out-of-range access is modelled as missing.  The
formula is stated for the positive frequencies the pyin contract
guarantees.) -/
noncomputable def calculate_pitch_diff (f0_1 f0_2 : List (Option ℝ))
    (wp : List (ℕ × ℕ)) : List (Option ℝ) :=
  wp.map fun ij =>
    match f0_1.getD ij.1 none, f0_2.getD ij.2 none with
    | some x, some y => some (1200 * Real.logb 2 (y / x))
    | _, _ => none

/-- All present frequencies of a curve are positive — the contract of the
external pitch tracker (`librosa.pyin` yields values in `[fmin, fmax]`,
`fmin = C2 ≈ 65.4 Hz`, or NaN). -/
def PosFreqs (f : List (Option ℝ)) : Prop :=
  ∀ x : ℝ, some x ∈ f → 0 < x

/-- Direction of a mean deviation: sharp (偏高) or flat (偏低). -/
inductive Trend where
  | sharp
  | flat
deriving DecidableEq

/-- The overall verdict band of the report. -/
inductive Verdict where
  | excellent
  | good
  | needsPractice
  | needsMuchPractice
deriving DecidableEq

/-- The statistics block of a generated report (the fields that feed the
report text; the `{:.1f}` formatting of the printed text is presentation). -/
structure PitchReport where
  mean_diff : ℝ
  mean_label : Trend
  accurate : ℕ
  slightly_off : ℕ
  seriously_off : ℕ
  total : ℕ
  accurate_pct : ℝ
  slightly_off_pct : ℝ
  seriously_off_pct : ℝ
  accuracy_rate : ℝ
  verdict : Verdict
  trend_note : Option Trend

/-- Outcome of `generate_report`: either the single-sentence
"无法生成报告：没有有效的音高数据" insufficient-data file, or a full report. -/
inductive Report where
  | insufficient
  | ok (r : PitchReport)

open Classical in
/-- The "accurate" tier test of the report, `np.abs(d) < 25`. -/
noncomputable def isAccurate (d : ℝ) : Bool := decide (|d| < 25)

open Classical in
/-- The "slightly off" tier test, `25 <= np.abs(d) < 50`. -/
noncomputable def isSlightlyOff (d : ℝ) : Bool := decide (25 ≤ |d| ∧ |d| < 50)

open Classical in
/-- The "seriously off" tier test, `np.abs(d) >= 50`. -/
noncomputable def isSeriouslyOff (d : ℝ) : Bool := decide (50 ≤ |d|)

/-- `generate_report` from the source (its decision content; the
`f0_1, f0_2, wp` parameters of the Python function do not influence the
report text, which depends only on `diffs`).  NaN entries are filtered out;
with none left the single-sentence insufficient-data file is written;
otherwise the statistics, tier counts, percentages, verdict band and
optional trend note are computed as in lines 283–339 of the source.
`np.std` and `np.median` feed only printed numbers, not any decision, and
are not modelled. -/
noncomputable def generate_report (diffs : List (Option ℝ)) : Report :=
  let valid := diffs.filterMap id
  if valid.length = 0 then .insufficient
  else
    let mean_diff := valid.sum / valid.length
    let accurate := valid.countP isAccurate
    let slightly_off := valid.countP isSlightlyOff
    let seriously_off := valid.countP isSeriouslyOff
    let total := valid.length
    let accuracy_rate : ℝ := 100 * accurate / total
    .ok
      { mean_diff := mean_diff
        mean_label := if 0 < mean_diff then .sharp else .flat
        accurate := accurate
        slightly_off := slightly_off
        seriously_off := seriously_off
        total := total
        accurate_pct := 100 * accurate / total
        slightly_off_pct := 100 * slightly_off / total
        seriously_off_pct := 100 * seriously_off / total
        accuracy_rate := accuracy_rate
        verdict :=
          if 80 < accuracy_rate then .excellent
          else if 60 < accuracy_rate then .good
          else if 40 < accuracy_rate then .needsPractice
          else .needsMuchPractice
        trend_note :=
          if 30 < |mean_diff| then
            if 0 < mean_diff then some .sharp else some .flat
          else none }

/-- One step of the stored (reverse-order) path: the earlier entry exceeds
the next one by `(1,0)`, `(0,1)` or `(1,1)`. -/
def RevStep (p q : ℕ × ℕ) : Prop :=
  (p.1 = q.1 + 1 ∧ p.2 = q.2) ∨ (p.1 = q.1 ∧ p.2 = q.2 + 1) ∨
    (p.1 = q.1 + 1 ∧ p.2 = q.2 + 1)

instance (p q : ℕ × ℕ) : Decidable (RevStep p q) := by
  unfold RevStep; infer_instance

lemma backtrack_headQ (a b : List ℝ) (i j : ℕ) :
    (backtrack a b i j).head? = some (i, j) := by
  cases i <;> cases j <;> simp [backtrack]

lemma backtrack_ne_nil (a b : List ℝ) (i j : ℕ) : backtrack a b i j ≠ [] := by
  intro h
  have hh := backtrack_headQ a b i j
  rw [h] at hh
  simp at hh

lemma getLastQ_cons_of_ne_nil {α : Type} (x : α) {l : List α} (h : l ≠ []) :
    (x :: l).getLast? = l.getLast? := by
  cases l with
  | nil => exact absurd rfl h
  | cons y ys => simp [List.getLast?_cons_cons]

lemma backtrack_getLast_aux (a b : List ℝ) :
    ∀ (n i j : ℕ), i + j ≤ n → (backtrack a b i j).getLast? = some (0, 0) := by
  intro n
  induction n with
  | zero =>
      intro i j h
      have hi : i = 0 := by omega
      have hj : j = 0 := by omega
      subst hi; subst hj
      simp [backtrack]
  | succ n ih =>
      intro i j h
      cases i with
      | zero =>
          cases j with
          | zero => simp [backtrack]
          | succ j =>
              rw [show backtrack a b 0 (j + 1) = (0, j + 1) :: backtrack a b 0 j from by
                    simp [backtrack],
                  getLastQ_cons_of_ne_nil _ (backtrack_ne_nil a b 0 j)]
              exact ih 0 j (by omega)
      | succ i =>
          cases j with
          | zero =>
              rw [show backtrack a b (i + 1) 0 = (i + 1, 0) :: backtrack a b i 0 from by
                    simp [backtrack],
                  getLastQ_cons_of_ne_nil _ (backtrack_ne_nil a b i 0)]
              exact ih i 0 (by omega)
          | succ j =>
              rcases hstep : chooseStep (accCost a b i j) (accCost a b (i + 1) j)
                  (accCost a b i (j + 1)) with _ | _ | _
              · rw [show backtrack a b (i + 1) (j + 1) = (i + 1, j + 1) :: backtrack a b i j from by
                      simp [backtrack, hstep],
                    getLastQ_cons_of_ne_nil _ (backtrack_ne_nil a b i j)]
                exact ih i j (by omega)
              · rw [show backtrack a b (i + 1) (j + 1) =
                      (i + 1, j + 1) :: backtrack a b (i + 1) j from by
                      simp [backtrack, hstep],
                    getLastQ_cons_of_ne_nil _ (backtrack_ne_nil a b (i + 1) j)]
                exact ih (i + 1) j (by omega)
              · rw [show backtrack a b (i + 1) (j + 1) =
                      (i + 1, j + 1) :: backtrack a b i (j + 1) from by
                      simp [backtrack, hstep],
                    getLastQ_cons_of_ne_nil _ (backtrack_ne_nil a b i (j + 1))]
                exact ih i (j + 1) (by omega)

lemma backtrack_getLastQ (a b : List ℝ) (i j : ℕ) :
    (backtrack a b i j).getLast? = some (0, 0) :=
  backtrack_getLast_aux a b (i + j) i j le_rfl

lemma chainQ_cons_of_headQ {α : Type} {R : α → α → Prop} {x y : α} {l : List α}
    (hh : l.head? = some y) (hR : R x y) (hc : List.Chain' R l) :
    List.Chain' R (x :: l) := by
  rw [List.chain'_cons']
  refine ⟨?_, hc⟩
  intro z hz
  rw [hh] at hz
  cases hz
  exact hR

lemma backtrack_chain_aux (a b : List ℝ) :
    ∀ (n i j : ℕ), i + j ≤ n → List.Chain' RevStep (backtrack a b i j) := by
  intro n
  induction n with
  | zero =>
      intro i j h
      have hi : i = 0 := by omega
      have hj : j = 0 := by omega
      subst hi; subst hj
      simp [backtrack]
  | succ n ih =>
      intro i j h
      cases i with
      | zero =>
          cases j with
          | zero => simp [backtrack]
          | succ j =>
              rw [show backtrack a b 0 (j + 1) = (0, j + 1) :: backtrack a b 0 j from by
                    simp [backtrack]]
              exact chainQ_cons_of_headQ (backtrack_headQ a b 0 j)
                (by simp [RevStep]) (ih 0 j (by omega))
      | succ i =>
          cases j with
          | zero =>
              rw [show backtrack a b (i + 1) 0 = (i + 1, 0) :: backtrack a b i 0 from by
                    simp [backtrack]]
              exact chainQ_cons_of_headQ (backtrack_headQ a b i 0)
                (by simp [RevStep]) (ih i 0 (by omega))
          | succ j =>
              rcases hstep : chooseStep (accCost a b i j) (accCost a b (i + 1) j)
                  (accCost a b i (j + 1)) with _ | _ | _
              · rw [show backtrack a b (i + 1) (j + 1) = (i + 1, j + 1) :: backtrack a b i j from by
                      simp [backtrack, hstep]]
                exact chainQ_cons_of_headQ (backtrack_headQ a b i j)
                  (by simp [RevStep]) (ih i j (by omega))
              · rw [show backtrack a b (i + 1) (j + 1) =
                      (i + 1, j + 1) :: backtrack a b (i + 1) j from by
                      simp [backtrack, hstep]]
                exact chainQ_cons_of_headQ (backtrack_headQ a b (i + 1) j)
                  (by simp [RevStep]) (ih (i + 1) j (by omega))
              · rw [show backtrack a b (i + 1) (j + 1) =
                      (i + 1, j + 1) :: backtrack a b i (j + 1) from by
                      simp [backtrack, hstep]]
                exact chainQ_cons_of_headQ (backtrack_headQ a b i (j + 1))
                  (by simp [RevStep]) (ih i (j + 1) (by omega))

lemma backtrack_chainQ (a b : List ℝ) (i j : ℕ) :
    List.Chain' RevStep (backtrack a b i j) :=
  backtrack_chain_aux a b (i + j) i j le_rfl

lemma hz_to_cents_440 : hz_to_cents (some (440:ℝ)) = .num 0 := by
  norm_num [hz_to_cents, Real.logb_one]

lemma hz_to_cents_880 : hz_to_cents (some (880:ℝ)) = .num 1200 := by
  have h2 : ((880:ℝ) / 440) = 2 := by norm_num
  have hl : Real.logb 2 2 = 1 := Real.logb_self_eq_one (by norm_num)
  norm_num [hz_to_cents, h2, hl]

lemma hz_to_cents_220 : hz_to_cents (some (220:ℝ)) = .num (-1200) := by
  have hl : Real.logb 2 ((1:ℝ) / 2) = -1 := by
    rw [show ((1:ℝ) / 2) = 2⁻¹ by norm_num, Real.logb_inv,
      Real.logb_self_eq_one (by norm_num)]
  norm_num [hz_to_cents, hl]

/-- **C1 (amended).** For every pair of non-empty input pitch curves of
lengths N and M, the alignment path returned by the aligner, read in its
stored order, begins with `(N-1, M-1)`, ends with `(0, 0)`, and each
successive pair is obtained from the previous one by subtracting exactly
one of `(1,0)`, `(0,1)`, `(1,1)` — i.e. the stored path is in REVERSE time
order; its reversal has the forward monotonic unit-step shape the original
claim describes. -/
theorem C1_path_stored_in_reverse_order (f0_1 f0_2 : List (Option ℝ))
    (h1 : f0_1 ≠ []) (h2 : f0_2 ≠ []) :
    ∃ wp, align_with_dtw f0_1 f0_2 = Except.ok wp ∧
      wp.head? = some (f0_1.length - 1, f0_2.length - 1) ∧
      wp.getLast? = some (0, 0) ∧ List.Chain' RevStep wp := by
  refine ⟨dtwPath (centsFilled f0_1) (centsFilled f0_2), ?_, ?_, ?_, ?_⟩
  · rw [align_with_dtw, if_neg]
    push_neg
    exact ⟨fun hc => h1 (List.length_eq_zero.mp hc),
      fun hc => h2 (List.length_eq_zero.mp hc)⟩
  · rw [dtwPath, backtrack_headQ]
    simp [centsFilled]
  · rw [dtwPath, backtrack_getLastQ]
  · exact backtrack_chainQ _ _ _ _

/-- Witness for C1 (amended) at the concrete curves
`[440 Hz]` and `[440 Hz, 880 Hz]`. -/
theorem C1_path_stored_in_reverse_order_witness :
    ∃ wp, align_with_dtw [some (440:ℝ)] [some (440:ℝ), some 880] = Except.ok wp ∧
      wp.head? = some (0, 1) ∧ wp.getLast? = some (0, 0) ∧ List.Chain' RevStep wp :=
  C1_path_stored_in_reverse_order [some 440] [some 440, some 880]
    (by simp) (by simp)

/-- **C1 (counterexample to the claim as stated).** Aligning the two-frame
curve `[440 Hz, 880 Hz]` with itself returns the stored path
`[(1,1), (0,0)]`, whose first stored pair is `(1,1)`, not `(0,0)`: the
stored order is not forward time order. -/
theorem C1_counterexample :
    align_with_dtw [some (440:ℝ), some 880] [some (440:ℝ), some 880] =
      Except.ok [(1, 1), (0, 0)] ∧
    List.head? [((1:ℕ), (1:ℕ)), (0, 0)] ≠ some (0, 0) := by
  constructor
  · rw [align_with_dtw, if_neg (by norm_num)]
    have hc : centsFilled [some (440:ℝ), some 880] = [0, 1200] := by
      simp [centsFilled, hz_to_cents_440, hz_to_cents_880, nanToNum]
    rw [hc]
    norm_num [dtwPath, backtrack, chooseStep, accCost, dtwCost]
  · simp

/-- **C8 (confirmed).** For every pair of input curves where at least one
curve has zero frames, the aligner fails with the empty-contour error
(the DTW library call raises before producing any path) rather than
returning a path. -/
theorem C8_empty_curve_fails (f0_1 f0_2 : List (Option ℝ))
    (h : f0_1.length = 0 ∨ f0_2.length = 0) :
    align_with_dtw f0_1 f0_2 = Except.error AlignError.emptyContour := by
  rw [align_with_dtw, if_pos h]

/-- Witness for C8 at the concrete input `([], [440 Hz])`. -/
theorem C8_empty_curve_fails_witness :
    align_with_dtw [] [some (440:ℝ)] = Except.error AlignError.emptyContour :=
  C8_empty_curve_fails [] [some 440] (Or.inl rfl)

/-- **C4 (confirmed).** Before the DTW cost matrix is constructed, each of
the two cents sequences is passed through `nan_to_num`, which sends every
missing (NaN) cents entry to `0`, and the alignment path is computed over
exactly these filled sequences. -/
theorem C4_missing_cents_zero_filled (f0_1 f0_2 : List (Option ℝ))
    (h1 : f0_1 ≠ []) (h2 : f0_2 ≠ []) :
    align_with_dtw f0_1 f0_2 =
      Except.ok (dtwPath (f0_1.map fun x => nanToNum (hz_to_cents x))
        (f0_2.map fun x => nanToNum (hz_to_cents x))) ∧
    ∀ x : Option ℝ, hz_to_cents x = CentsVal.nan → nanToNum (hz_to_cents x) = 0 := by
  constructor
  · rw [align_with_dtw, if_neg]
    · rfl
    · push_neg
      exact ⟨fun hc => h1 (List.length_eq_zero.mp hc),
        fun hc => h2 (List.length_eq_zero.mp hc)⟩
  · intro x hx
    rw [hx]
    rfl

/-- Witness for C4 at the concrete all-missing curves `[NaN]`, `[NaN]`. -/
theorem C4_missing_cents_zero_filled_witness :
    align_with_dtw [none] [none] =
      Except.ok (dtwPath ([none].map fun x => nanToNum (hz_to_cents x))
        ([none].map fun x => nanToNum (hz_to_cents x))) :=
  (C4_missing_cents_zero_filled [none] [none] (by simp) (by simp)).1

/-- **C2 (counterexample to the claim as stated).** At the frequency `0`
(which is ≤ 0 and not missing), `hz_to_cents` returns `-inf` — a
non-missing value that propagates numerically — rather than the missing
value. -/
theorem C2_counterexample :
    hz_to_cents (some (0:ℝ)) = CentsVal.ninf ∧ CentsVal.ninf ≠ CentsVal.nan := by
  constructor
  · norm_num [hz_to_cents]
  · intro h
    exact CentsVal.noConfusion h

/-- **C2 (amended).** The Hz-to-cents conversion returns
`1200 * log2(f/440)` when the frequency is positive, returns the missing
value when the frequency is missing or strictly negative, and returns
negative infinity (a non-missing value) when the frequency is exactly 0.
No case raises. -/
theorem C2_hz_to_cents_contract (f : Option ℝ) :
    (f = none → hz_to_cents f = CentsVal.nan) ∧
    ∀ x : ℝ, f = some x →
      (0 < x → hz_to_cents f = CentsVal.num (1200 * Real.logb 2 (x / 440))) ∧
      (x < 0 → hz_to_cents f = CentsVal.nan) ∧
      (x = 0 → hz_to_cents f = CentsVal.ninf) := by
  constructor
  · intro h
    subst h
    rfl
  · intro x h
    subst h
    refine ⟨?_, ?_, ?_⟩
    · intro hx
      simp only [hz_to_cents]
      rw [if_pos hx]
    · intro hx
      simp only [hz_to_cents]
      rw [if_neg (by linarith), if_neg hx.ne]
    · intro hx
      subst hx
      norm_num [hz_to_cents]

/-- Witness for C2 (amended) at the concrete inputs `880 Hz` and NaN. -/
theorem C2_hz_to_cents_contract_witness :
    hz_to_cents (some (880:ℝ)) = CentsVal.num (1200 * Real.logb 2 (880 / 440)) ∧
    hz_to_cents none = CentsVal.nan :=
  ⟨((C2_hz_to_cents_contract (some 880)).2 880 rfl).1 (by norm_num),
    (C2_hz_to_cents_contract none).1 rfl⟩

/-- **C3 (confirmed).** The deviation series has exactly one entry per path
pair, in path order; the entry at a pair `(i, j)` with both frequencies
present is `1200 * log2(freqB[j] / freqA[i])` computed from the raw Hz
ratio, and is missing when either frequency is missing.  (Stated under the
pitch-tracker contract that present frequencies are positive.) -/
theorem C3_deviation_series (f0_1 f0_2 : List (Option ℝ)) (wp : List (ℕ × ℕ))
    (hp1 : PosFreqs f0_1) (hp2 : PosFreqs f0_2) :
    (calculate_pitch_diff f0_1 f0_2 wp).length = wp.length ∧
    ∀ k i j : ℕ, wp.get? k = some (i, j) →
      (∀ x y : ℝ, f0_1.getD i none = some x → f0_2.getD j none = some y →
        (calculate_pitch_diff f0_1 f0_2 wp).get? k =
          some (some (1200 * Real.logb 2 (y / x)))) ∧
      ((f0_1.getD i none = none ∨ f0_2.getD j none = none) →
        (calculate_pitch_diff f0_1 f0_2 wp).get? k = some none) := by
  have hmap : ∀ k : ℕ, (calculate_pitch_diff f0_1 f0_2 wp).get? k =
      Option.map (fun ij : ℕ × ℕ =>
        match f0_1.getD ij.1 none, f0_2.getD ij.2 none with
        | some x, some y => some (1200 * Real.logb 2 (y / x))
        | _, _ => none) (wp.get? k) := by
    intro k
    rw [calculate_pitch_diff, List.get?_map]
  constructor
  · simp [calculate_pitch_diff]
  · intro k i j hk
    constructor
    · intro x y hx hy
      rw [hmap, hk, Option.map_some', hx, hy]
    · intro hmiss
      rcases hmiss with hm | hm
      · rcases hx2 : f0_2.getD j none with _ | y
        · rw [hmap, hk, Option.map_some', hm, hx2]
        · rw [hmap, hk, Option.map_some', hm, hx2]
      · rcases hx1 : f0_1.getD i none with _ | x
        · rw [hmap, hk, Option.map_some', hx1, hm]
        · rw [hmap, hk, Option.map_some', hx1, hm]

/-- Witness for C3 at the concrete curves `[440 Hz]`, `[880 Hz]` and the
one-pair path `[(0, 0)]`. -/
theorem C3_deviation_series_witness :
    (calculate_pitch_diff [some (440:ℝ)] [some (880:ℝ)] [(0, 0)]).length = 1 :=
  (C3_deviation_series [some 440] [some 880] [(0, 0)]
    (by intro x hx; simp at hx; subst hx; norm_num)
    (by intro x hx; simp at hx; subst hx; norm_num)).1

lemma dtwCost_nonneg (a b : List ℝ) (i j : ℕ) : 0 ≤ dtwCost a b i j :=
  abs_nonneg _

lemma accCost_nonneg_aux (a b : List ℝ) :
    ∀ (n i j : ℕ), i + j ≤ n → 0 ≤ accCost a b i j := by
  intro n
  induction n with
  | zero =>
      intro i j h
      have hi : i = 0 := by omega
      have hj : j = 0 := by omega
      subst hi; subst hj
      simpa [accCost] using dtwCost_nonneg a b 0 0
  | succ n ih =>
      intro i j h
      cases i with
      | zero =>
          cases j with
          | zero => simpa [accCost] using dtwCost_nonneg a b 0 0
          | succ j =>
              rw [show accCost a b 0 (j + 1) = dtwCost a b 0 (j + 1) + accCost a b 0 j from by
                    simp [accCost]]
              exact add_nonneg (dtwCost_nonneg a b 0 (j + 1)) (ih 0 j (by omega))
      | succ i =>
          cases j with
          | zero =>
              rw [show accCost a b (i + 1) 0 = dtwCost a b (i + 1) 0 + accCost a b i 0 from by
                    simp [accCost]]
              exact add_nonneg (dtwCost_nonneg a b (i + 1) 0) (ih i 0 (by omega))
          | succ j =>
              rw [show accCost a b (i + 1) (j + 1) = dtwCost a b (i + 1) (j + 1) +
                    min (accCost a b i j)
                      (min (accCost a b (i + 1) j) (accCost a b i (j + 1))) from by
                    simp [accCost]]
              exact add_nonneg (dtwCost_nonneg a b (i + 1) (j + 1))
                (le_min (ih i j (by omega))
                  (le_min (ih (i + 1) j (by omega)) (ih i (j + 1) (by omega))))

lemma accCost_nonneg (a b : List ℝ) (i j : ℕ) : 0 ≤ accCost a b i j :=
  accCost_nonneg_aux a b (i + j) i j le_rfl

lemma accCost_self_diag (a : List ℝ) : ∀ k : ℕ, accCost a a k k = 0 := by
  intro k
  induction k with
  | zero => simp [accCost, dtwCost]
  | succ k ih =>
      rw [show accCost a a (k + 1) (k + 1) = dtwCost a a (k + 1) (k + 1) +
            min (accCost a a k k)
              (min (accCost a a (k + 1) k) (accCost a a k (k + 1))) from by
            simp [accCost]]
      rw [show dtwCost a a (k + 1) (k + 1) = 0 from by simp [dtwCost], ih, zero_add]
      exact min_eq_left (le_min (accCost_nonneg a a (k + 1) k) (accCost_nonneg a a k (k + 1)))

lemma backtrack_self (a : List ℝ) :
    ∀ k : ℕ, backtrack a a k k = ((List.range (k + 1)).reverse).map fun t => (t, t) := by
  intro k
  induction k with
  | zero =>
      rw [show backtrack a a 0 0 = [(0, 0)] from by simp [backtrack]]
      decide
  | succ k ih =>
      have hstep : chooseStep (accCost a a k k) (accCost a a (k + 1) k)
          (accCost a a k (k + 1)) = .diag := by
        rw [chooseStep, if_pos]
        rw [accCost_self_diag]
        exact ⟨accCost_nonneg a a (k + 1) k, accCost_nonneg a a k (k + 1)⟩
      rw [show backtrack a a (k + 1) (k + 1) = (k + 1, k + 1) :: backtrack a a k k from by
            simp [backtrack, hstep], ih]
      rw [show List.range (k + 1 + 1) = List.range (k + 1) ++ [k + 1] from
            List.range_succ (n := k + 1)]
      simp

lemma getD_some_mem {α : Type} {l : List (Option α)} {t : ℕ} {x : α}
    (h : l.getD t none = some x) : some x ∈ l := by
  rcases hq : l.get? t with _ | v
  · rw [List.getD_eq_getD_get?, hq] at h
    cases h
  · rw [List.getD_eq_getD_get?, hq] at h
    simp at h
    subst h
    exact List.get?_mem hq

/-- **C9 (amended).** Aligning a non-empty curve against itself yields the
diagonal path stored in reverse time order — the pair at position k is
`(N-1-k, N-1-k)`, i.e. the stored list is `[(N-1,N-1), ..., (1,1), (0,0)]`
— and the resulting deviation series is zero at every pair where the
curve's frequency is present and missing at every pair where it is
missing.  (Stated under the pitch-tracker contract that present
frequencies are positive.) -/
theorem C9_identity_alignment (f : List (Option ℝ)) (hne : f ≠ [])
    (hp : PosFreqs f) :
    ∃ wp, align_with_dtw f f = Except.ok wp ∧
      wp = ((List.range f.length).reverse).map (fun t => (t, t)) ∧
      calculate_pitch_diff f f wp =
        ((List.range f.length).reverse).map fun t =>
          (f.getD t none).map fun _ => (0:ℝ) := by
  have hn : 0 < f.length := List.length_pos.mpr hne
  have hclen : (centsFilled f).length = f.length := by simp [centsFilled]
  have hpath : dtwPath (centsFilled f) (centsFilled f) =
      ((List.range f.length).reverse).map fun t => (t, t) := by
    rw [dtwPath, backtrack_self, hclen, Nat.sub_add_cancel hn]
  refine ⟨_, ?_, hpath, ?_⟩
  · rw [align_with_dtw, if_neg]
    push_neg
    refine ⟨?_, ?_⟩ <;> exact fun hc => hne (List.length_eq_zero.mp hc)
  · rw [hpath, calculate_pitch_diff, List.map_map]
    apply List.map_congr_left
    intro t _
    rcases hx : f.getD t none with _ | x
    · dsimp only [Function.comp]
      rw [hx]
      rfl
    · have hxpos : 0 < x := hp x (getD_some_mem hx)
      dsimp only [Function.comp]
      rw [hx]
      simp [div_self (ne_of_gt hxpos), Real.logb_one]

/-- Witness for C9 (amended) at the concrete curve `[440 Hz, NaN]`. -/
theorem C9_identity_alignment_witness :
    ∃ wp, align_with_dtw [some (440:ℝ), none] [some (440:ℝ), none] = Except.ok wp ∧
      wp = ((List.range 2).reverse).map (fun t => (t, t)) ∧
      calculate_pitch_diff [some (440:ℝ), none] [some (440:ℝ), none] wp =
        ((List.range 2).reverse).map fun t =>
          (([some (440:ℝ), none].getD t none).map fun _ => (0:ℝ)) :=
  C9_identity_alignment [some 440, none] (by simp)
    (by intro x hx; simp at hx; subst hx; norm_num)

/-- **C9 (counterexample to the claim as stated).** Aligning the two-frame
curve `[440 Hz, 880 Hz]` against itself yields the stored path
`[(1,1), (0,0)]`: the pairs are the diagonal ones, but the pair at
position `k = 0` is `(1,1)`, not `(0,0)` — the stored order is reversed. -/
theorem C9_counterexample :
    align_with_dtw [some (440:ℝ), some 880] [some (440:ℝ), some 880] =
      Except.ok [(1, 1), (0, 0)] ∧
    List.get? [((1:ℕ), (1:ℕ)), (0, 0)] 0 ≠ some (0, 0) := by
  constructor
  · rw [align_with_dtw, if_neg (by norm_num)]
    have hc : centsFilled [some (440:ℝ), some 880] = [0, 1200] := by
      simp [centsFilled, hz_to_cents_440, hz_to_cents_880, nanToNum]
    rw [hc]
    norm_num [dtwPath, backtrack, chooseStep, accCost, dtwCost]
  · simp

lemma tier_partition (l : List ℝ) :
    l.countP isAccurate + l.countP isSlightlyOff + l.countP isSeriouslyOff = l.length := by
  induction l with
  | nil => simp
  | cons x l ih =>
      rw [List.countP_cons, List.countP_cons, List.countP_cons]
      rcases lt_or_le |x| 25 with h1 | h1
      · have e1 : isAccurate x = true := by simp [isAccurate, h1]
        have e2 : isSlightlyOff x = false := by
          simp only [isSlightlyOff, decide_eq_false_iff_not]
          rintro ⟨h25, -⟩
          linarith
        have e3 : isSeriouslyOff x = false := by
          simp only [isSeriouslyOff, decide_eq_false_iff_not, not_le]
          linarith
        rw [e1, e2, e3]
        simp [List.length_cons]
        omega
      · rcases lt_or_le |x| 50 with h2 | h2
        · have e1 : isAccurate x = false := by
            simp only [isAccurate, decide_eq_false_iff_not, not_lt]
            exact h1
          have e2 : isSlightlyOff x = true := by simp [isSlightlyOff, h1, h2]
          have e3 : isSeriouslyOff x = false := by
            simp only [isSeriouslyOff, decide_eq_false_iff_not, not_le]
            exact h2
          rw [e1, e2, e3]
          simp [List.length_cons]
          omega
        · have e1 : isAccurate x = false := by
            simp only [isAccurate, decide_eq_false_iff_not, not_lt]
            linarith
          have e2 : isSlightlyOff x = false := by
            simp only [isSlightlyOff, decide_eq_false_iff_not]
            rintro ⟨-, h50⟩
            linarith
          have e3 : isSeriouslyOff x = true := by simp [isSeriouslyOff, h2]
          rw [e1, e2, e3]
          simp [List.length_cons]
          omega

/-- **C5 (confirmed).** The three tier counts partition the non-missing
entries exactly — a frame is accurate iff `|d| < 25`, slightly off iff
`25 ≤ |d| < 50`, seriously off iff `|d| ≥ 50`, the counts sum to the number
of non-missing entries, and the three reported percentages sum to 100. -/
theorem C5_tier_partition (diffs : List (Option ℝ))
    (h : diffs.filterMap id ≠ []) :
    ∃ r, generate_report diffs = Report.ok r ∧
      r.accurate + r.slightly_off + r.seriously_off = r.total ∧
      r.total = (diffs.filterMap id).length ∧
      r.accurate_pct + r.slightly_off_pct + r.seriously_off_pct = 100 ∧
      (∀ d : ℝ, isAccurate d = true ↔ |d| < 25) ∧
      (∀ d : ℝ, isSlightlyOff d = true ↔ 25 ≤ |d| ∧ |d| < 50) ∧
      (∀ d : ℝ, isSeriouslyOff d = true ↔ 50 ≤ |d|) := by
  have hlen : (diffs.filterMap id).length ≠ 0 := fun hc => h (List.length_eq_zero.mp hc)
  simp only [generate_report]
  rw [if_neg hlen]
  refine ⟨_, rfl, tier_partition _, rfl, ?_, ?_, ?_, ?_⟩
  · have hpart := tier_partition (diffs.filterMap id)
    have ht : ((diffs.filterMap id).length : ℝ) ≠ 0 := Nat.cast_ne_zero.mpr hlen
    have hcast : ((diffs.filterMap id).countP isAccurate : ℝ) +
        ((diffs.filterMap id).countP isSlightlyOff : ℝ) +
        ((diffs.filterMap id).countP isSeriouslyOff : ℝ) =
        ((diffs.filterMap id).length : ℝ) := by exact_mod_cast hpart
    field_simp
    linarith
  · intro d
    simp [isAccurate]
  · intro d
    simp [isSlightlyOff]
  · intro d
    simp [isSeriouslyOff]

/-- Witness for C5 at the concrete one-entry series `[0 cents]`. -/
theorem C5_tier_partition_witness :
    ∃ r, generate_report [some (0:ℝ)] = Report.ok r ∧
      r.accurate + r.slightly_off + r.seriously_off = r.total ∧
      r.total = ([some (0:ℝ)].filterMap id).length ∧
      r.accurate_pct + r.slightly_off_pct + r.seriously_off_pct = 100 ∧
      (∀ d : ℝ, isAccurate d = true ↔ |d| < 25) ∧
      (∀ d : ℝ, isSlightlyOff d = true ↔ 25 ≤ |d| ∧ |d| < 50) ∧
      (∀ d : ℝ, isSeriouslyOff d = true ↔ 50 ≤ |d|) :=
  C5_tier_partition [some 0] (by simp)

/-- **C6 (confirmed).** The verdict is selected from the accuracy
percentage `p = 100*accurate/total` by the bands `p > 80` → excellent,
`60 < p ≤ 80` → good-with-room-to-improve, `40 < p ≤ 60` → needs-practice,
`p ≤ 40` → needs-substantial-practice, and a directional note is appended
exactly when `|mean| > 30`: sharp-trending for a positive mean,
flat-trending for a negative one. -/
theorem C6_verdict_bands (diffs : List (Option ℝ))
    (h : diffs.filterMap id ≠ []) :
    ∃ r, generate_report diffs = Report.ok r ∧
      r.accuracy_rate = 100 * r.accurate / r.total ∧
      (80 < r.accuracy_rate → r.verdict = Verdict.excellent) ∧
      (60 < r.accuracy_rate ∧ r.accuracy_rate ≤ 80 → r.verdict = Verdict.good) ∧
      (40 < r.accuracy_rate ∧ r.accuracy_rate ≤ 60 → r.verdict = Verdict.needsPractice) ∧
      (r.accuracy_rate ≤ 40 → r.verdict = Verdict.needsMuchPractice) ∧
      (30 < |r.mean_diff| ∧ 0 < r.mean_diff → r.trend_note = some Trend.sharp) ∧
      (30 < |r.mean_diff| ∧ r.mean_diff < 0 → r.trend_note = some Trend.flat) ∧
      (|r.mean_diff| ≤ 30 → r.trend_note = none) := by
  have hlen : (diffs.filterMap id).length ≠ 0 := fun hc => h (List.length_eq_zero.mp hc)
  simp only [generate_report]
  rw [if_neg hlen]
  refine ⟨_, rfl, rfl, ?_, ?_, ?_, ?_, ?_, ?_, ?_⟩
  · intro h80
    dsimp only at h80 ⊢
    rw [if_pos h80]
  · rintro ⟨h60, h80⟩
    dsimp only at h60 h80 ⊢
    rw [if_neg (not_lt.mpr h80), if_pos h60]
  · rintro ⟨h40, h60⟩
    dsimp only at h40 h60 ⊢
    rw [if_neg (not_lt.mpr (h60.trans (by norm_num))), if_neg (not_lt.mpr h60), if_pos h40]
  · intro h40
    dsimp only at h40 ⊢
    rw [if_neg (not_lt.mpr (h40.trans (by norm_num))),
      if_neg (not_lt.mpr (h40.trans (by norm_num))), if_neg (not_lt.mpr h40)]
  · rintro ⟨h30, hpos⟩
    dsimp only at h30 hpos ⊢
    rw [if_pos h30, if_pos hpos]
  · rintro ⟨h30, hneg⟩
    dsimp only at h30 hneg ⊢
    rw [if_pos h30, if_neg (not_lt.mpr hneg.le)]
  · intro h30
    dsimp only at h30 ⊢
    rw [if_neg (not_lt.mpr h30)]

/-- Witness for C6 at the concrete one-entry series `[0 cents]`. -/
theorem C6_verdict_bands_witness :
    ∃ r, generate_report [some (0:ℝ)] = Report.ok r ∧
      r.accuracy_rate = 100 * r.accurate / r.total ∧
      (80 < r.accuracy_rate → r.verdict = Verdict.excellent) ∧
      (60 < r.accuracy_rate ∧ r.accuracy_rate ≤ 80 → r.verdict = Verdict.good) ∧
      (40 < r.accuracy_rate ∧ r.accuracy_rate ≤ 60 → r.verdict = Verdict.needsPractice) ∧
      (r.accuracy_rate ≤ 40 → r.verdict = Verdict.needsMuchPractice) ∧
      (30 < |r.mean_diff| ∧ 0 < r.mean_diff → r.trend_note = some Trend.sharp) ∧
      (30 < |r.mean_diff| ∧ r.mean_diff < 0 → r.trend_note = some Trend.flat) ∧
      (|r.mean_diff| ≤ 30 → r.trend_note = none) :=
  C6_verdict_bands [some 0] (by simp)

/-- **C7 (confirmed).** A deviation series whose entries are all missing
yields the insufficient-data report (a single explanatory sentence, no
statistics) rather than an exception. -/
theorem C7_insufficient_data (diffs : List (Option ℝ))
    (h : ∀ d ∈ diffs, d = none) :
    generate_report diffs = Report.insufficient := by
  have hv : diffs.filterMap id = [] := by
    rw [List.filterMap_eq_nil]
    intro a ha
    simpa using h a ha
  simp only [generate_report]
  rw [if_pos (by rw [hv]; rfl)]

/-- Witness for C7 at the concrete all-missing series `[NaN, NaN]`. -/
theorem C7_insufficient_data_witness :
    generate_report [none, none] = Report.insufficient :=
  C7_insufficient_data [none, none] (by simp)

/-- **C10 (confirmed).** In the overall-statistics block the directional
label on the mean deviation reads sharp (偏高) iff the mean is strictly
positive; a mean of exactly `0` is labeled flat (偏低). -/
theorem C10_mean_label (diffs : List (Option ℝ))
    (h : diffs.filterMap id ≠ []) :
    ∃ r, generate_report diffs = Report.ok r ∧
      (r.mean_label = Trend.sharp ↔ 0 < r.mean_diff) ∧
      (r.mean_diff = 0 → r.mean_label = Trend.flat) := by
  have hlen : (diffs.filterMap id).length ≠ 0 := fun hc => h (List.length_eq_zero.mp hc)
  simp only [generate_report]
  rw [if_neg hlen]
  refine ⟨_, rfl, ?_, ?_⟩
  · dsimp only
    by_cases hm : 0 < (diffs.filterMap id).sum / ((diffs.filterMap id).length : ℝ)
    · rw [if_pos hm]
      simp [hm]
    · rw [if_neg hm]
      simp [hm]
  · intro h0
    dsimp only at h0 ⊢
    rw [if_neg (not_lt.mpr h0.le)]

/-- Witness for C10 at the concrete one-entry series `[-100 cents]`. -/
theorem C10_mean_label_witness :
    ∃ r, generate_report [some (-100:ℝ)] = Report.ok r ∧
      (r.mean_label = Trend.sharp ↔ 0 < r.mean_diff) ∧
      (r.mean_diff = 0 → r.mean_label = Trend.flat) :=
  C10_mean_label [some (-100)] (by simp)
